import Mathlib

/-!
Shallow embedding of the data pipeline of `src/dashboard.py`
(`load_data`, the global filter block, and the view aggregations),
together with theorems settling the specification claims.

A pandas DataFrame is modelled as a `RawTable`: a list of column names
plus a list of rows, each row an association list from column name to
`Cell`.  A `Cell` is the content of one spreadsheet cell as pandas sees
it: empty (NaN), a number, a string, or a date (a cell whose content
parses as a date under the day-first convention, represented by its
ordinal as an integer).  Column access `df[col]` raises `KeyError` when
the column is absent; this is modelled with `Except String`.
-/

namespace Dashboard

/-- One spreadsheet cell as read by pandas: empty (NaN), a numeric value
(floats are modelled as exact rationals), a string, or a date cell
(a cell whose content parses as a date, day-first; `Int` is its ordinal). -/
inductive Cell where
  | empty : Cell
  | num : ℚ → Cell
  | str : String → Cell
  | date : Int → Cell
deriving DecidableEq, Repr

/-- A row: an association list from column name to cell. -/
abbrev Row := List (String × Cell)

/-- A DataFrame: the list of column names and the rows. -/
structure RawTable where
  cols : List String
  rows : List Row
deriving DecidableEq, Repr

/-- Value of a row under a column name; missing entries read as NaN. -/
def rowGet (r : Row) (c : String) : Cell :=
  match r.find? (fun p => p.1 == c) with
  | some p => p.2
  | none => .empty

/-- Overwrite (or create) the entry of a row under a column name. -/
def setCell (r : Row) (c : String) (v : Cell) : Row :=
  (c, v) :: r.filter (fun p => !(p.1 == c))

/-- Parse a list of digit characters as a natural number. -/
def parseDigits (l : List Char) : Option Nat :=
  if l ≠ [] ∧ l.all Char.isDigit then
    some (l.foldl (fun n ch => n * 10 + (ch.toNat - 48)) 0)
  else none

/-- Parse a decimal string as an exact rational, the way
`pd.to_numeric` accepts a plain float literal: optional sign, digits,
optional fractional part.  `none` on anything else. -/
def parseNum (s : String) : Option ℚ :=
  let (sgn, body) : ℚ × List Char :=
    match s.data with
    | '-' :: rest => (-1, rest)
    | '+' :: rest => (1, rest)
    | l => (1, l)
  match body.splitOn '.' with
  | [ip] => (parseDigits ip).map (fun n => sgn * (n : ℚ))
  | [ip, fp] =>
      match parseDigits ip, parseDigits fp with
      | some n, some f => some (sgn * ((n : ℚ) + (f : ℚ) / ((10 : ℚ) ^ fp.length)))
      | _, _ => none
  | _ => none

/-- `pd.to_numeric(·, errors='coerce')` on one cell: numbers pass
through, numeric strings parse, everything else becomes NaN (`none`). -/
def toNumeric : Cell → Option ℚ
  | .num q => some q
  | .str s => parseNum s
  | _ => none

/-- `pd.to_datetime(·, errors='coerce', dayfirst=True)` on one cell:
date cells (cells whose content parses as a date) pass through,
everything else becomes NaT (`none`). -/
def toDate : Cell → Option Int
  | .date d => some d
  | _ => none

/-- How `astype(str)` renders a cell. -/
def cellToString : Cell → String
  | .empty => ""
  | .num q => toString q
  | .str s => s
  | .date d => toString d

/-- `fillna(dflt).astype(str)` on one cell. -/
def fillStr (dflt : String) : Cell → Cell
  | .empty => .str dflt
  | c => .str (cellToString c)

/-- `fillna(dflt)` on one cell. -/
def fillCell (dflt : Cell) : Cell → Cell
  | .empty => dflt
  | c => c

/-- `pd.to_numeric(·, errors='coerce').fillna(0)` on one cell. -/
def coerceNumeric (c : Cell) : Cell := .num ((toNumeric c).getD 0)

/-- `pd.to_datetime(·, errors='coerce')` on one cell (NaT = empty). -/
def coerceDate (c : Cell) : Cell :=
  match toDate c with
  | some d => .date d
  | none => .empty

/-- Numeric reading of a cell (0 for non-numeric), used where pandas
arithmetic consumes an already-coerced numeric column. -/
def cellNum : Cell → ℚ
  | .num q => q
  | _ => 0

/-- The fixed column rename map of `load_data` (dashboard.py line 49). -/
def renameMap : List (String × String) :=
  [("Data de Pagamento", "data_pagamento"), ("Valor em R$", "valor_principal_rs"),
   ("Número do RM", "numero_rm"), ("Correspondente", "correspondente"),
   ("ND recebida", "nd_recebida"), ("IOF", "iof"), ("TX CONTRATO", "tx_contrato"),
   ("IRRF", "irrf"), ("CIDE", "cide"), ("Moeda", "moeda"), ("Valor", "valor_moeda_origem")]

/-- Rename one column header through `renameMap`. -/
def renameCol (c : String) : String :=
  match renameMap.find? (fun p => p.1 == c) with
  | some p => p.2
  | none => c

/-- `df.rename(columns=...)` applied to a row. -/
def renameRow (r : Row) : Row := r.map (fun p => (renameCol p.1, p.2))

/-- `df.rename(columns=...)` applied to the table. -/
def renameTable (t : RawTable) : RawTable :=
  ⟨t.cols.map renameCol, t.rows.map renameRow⟩

/-- `cols_to_keep` (dashboard.py line 50). -/
def colsToKeep : List String :=
  ["data_pagamento", "valor_principal_rs", "numero_rm", "correspondente",
   "nd_recebida", "iof", "tx_contrato", "irrf", "cide", "moeda", "valor_moeda_origem"]

/-- `df = df[[col for col in cols_to_keep if col in df.columns]]`
(line 51): recognized-but-absent columns are silently omitted here. -/
def selectCols (t : RawTable) : RawTable :=
  ⟨colsToKeep.filter (fun c => c ∈ t.cols), t.rows⟩

/-- `df[c] = f(df[c])`: raises `KeyError` when the column is absent,
otherwise maps `f` over the column's cells. -/
def mapColE (t : RawTable) (c : String) (f : Cell → Cell) : Except String RawTable :=
  if c ∈ t.cols then
    .ok ⟨t.cols, t.rows.map (fun r => setCell r c (f (rowGet r c)))⟩
  else .error ("KeyError: " ++ c)

/-- `df[c] = g(df[d₁], ..., df[dₙ])`: raises `KeyError` when some read
column is absent, otherwise adds the new column computed per row. -/
def addColE (t : RawTable) (c : String) (deps : List String) (f : Row → Cell) :
    Except String RawTable :=
  if ∀ d ∈ deps, d ∈ t.cols then
    .ok ⟨t.cols ++ [c], t.rows.map (fun r => setCell r c (f r))⟩
  else .error "KeyError"

/-- The per-column coercion steps of `load_data` (lines 52-58), in
source order: the six numeric columns, the four string fills, then the
payment-date coercion. -/
def normSteps : List (String × (Cell → Cell)) :=
  [("valor_principal_rs", coerceNumeric), ("iof", coerceNumeric),
   ("tx_contrato", coerceNumeric), ("irrf", coerceNumeric), ("cide", coerceNumeric),
   ("valor_moeda_origem", coerceNumeric),
   ("numero_rm", fillStr "Não informado"), ("nd_recebida", fillStr "Não informada"),
   ("correspondente", fillCell (.str "Não informado")), ("moeda", fillCell (.str "N/A")),
   ("data_pagamento", coerceDate)]

/-- Run a list of column-coercion steps left to right. -/
def applySteps (t : RawTable) : List (String × (Cell → Cell)) → Except String RawTable
  | [] => .ok t
  | (c, f) :: rest =>
      match mapColE t c f with
      | .ok t' => applySteps t' rest
      | .error e => .error e

/-- One coercion step on a single row. -/
def stepRow (r : Row) (p : String × (Cell → Cell)) : Row :=
  setCell r p.1 (p.2 (rowGet r p.1))

/-- All coercion steps on a single row. -/
def rowSteps (ss : List (String × (Cell → Cell))) (r : Row) : Row :=
  ss.foldl stepRow r

/-- `np.where(pd.notna(df['data_pagamento']), 'Pago', 'Pendente')`
on one row (line 59). -/
def statusCell (r : Row) : Cell :=
  if (toDate (rowGet r "data_pagamento")).isSome then .str "Pago" else .str "Pendente"

/-- Columns read by the `valor_total_pago` derivation (line 60). -/
def totalCols : List String :=
  ["valor_principal_rs", "iof", "tx_contrato", "irrf", "cide"]

/-- `df['valor_principal_rs'] + df['iof'] + df['tx_contrato'] +
df['irrf'] + df['cide']` on one row (line 60). -/
def totalCell (r : Row) : Cell :=
  .num (cellNum (rowGet r "valor_principal_rs") + cellNum (rowGet r "iof") +
        cellNum (rowGet r "tx_contrato") + cellNum (rowGet r "irrf") +
        cellNum (rowGet r "cide"))

/-- Lines 49-60 of `load_data`: rename, select recognized columns,
coerce each column, derive `status` and `valor_total_pago`. -/
def normalizeTable (t0 : RawTable) : Except String RawTable :=
  match applySteps (selectCols (renameTable t0)) normSteps with
  | .error e => .error e
  | .ok t1 =>
      match addColE t1 "status" ["data_pagamento"] statusCell with
      | .error e => .error e
      | .ok t2 => addColE t2 "valor_total_pago" totalCols totalCell

/-- The full normalization of one (renamed) row. -/
def normRow (r : Row) : Row :=
  let r1 := rowSteps normSteps r
  let r2 := setCell r1 "status" (statusCell r1)
  setCell r2 "valor_total_pago" (totalCell r2)

/-- Line 61: `df[df['status'] == 'Pago'], df[df['status'] == 'Pendente']`. -/
def partitionTable (t : RawTable) : RawTable × RawTable :=
  (⟨t.cols, t.rows.filter (fun r => rowGet r "status" == .str "Pago")⟩,
   ⟨t.cols, t.rows.filter (fun r => rowGet r "status" == .str "Pendente")⟩)

/-- `numeric_cols` (dashboard.py line 52). -/
def numericCols : List String :=
  ["valor_principal_rs", "iof", "tx_contrato", "irrf", "cide", "valor_moeda_origem"]

/-- The user-selected filters of the sidebar: the optional payment-date
range (present only when two dates are selected, line 185), the selected
counterparties, and the selected reference numbers. -/
structure FilterSpec where
  dateRange : Option (Int × Int)
  correspondentes : List Cell
  rms : List Cell
deriving DecidableEq, Repr

/-- `df['data_pagamento'].between(start_date, end_date)` on one row
(line 187): inclusive on both ends, false on NaT. -/
def dateFilterRow (s e : Int) (r : Row) : Bool :=
  match toDate (rowGet r "data_pagamento") with
  | some d => decide (s ≤ d ∧ d ≤ e)
  | none => false

/-- `df['correspondente'].isin(selected) & df['numero_rm'].isin(selected)`
on one row (lines 188-189). -/
def memFilterRow (spec : FilterSpec) (r : Row) : Bool :=
  decide (rowGet r "correspondente" ∈ spec.correspondentes) &&
  decide (rowGet r "numero_rm" ∈ spec.rms)

/-- Lines 184-189: the date-range filter applies to the paid rows only;
the counterparty and reference-number membership filters apply to both. -/
def applyFilters (paid pending : List Row) (spec : FilterSpec) : List Row × List Row :=
  let paid1 :=
    match spec.dateRange with
    | some (s, e) => paid.filter (dateFilterRow s e)
    | none => paid
  (paid1.filter (memFilterRow spec), pending.filter (memFilterRow spec))

/-- `df_pago['valor_total_pago'].sum()` (line 74). -/
def sumTotalPago (l : List Row) : ℚ :=
  (l.map (fun r => cellNum (rowGet r "valor_total_pago"))).sum

/-- `df_pago.loc[df_pago['valor_total_pago'].idxmax()]` (line 74):
the first row attaining the maximal `valor_total_pago`; `none` on an
empty frame (the branch the code only reaches when nonempty). -/
def maiorFatura : List Row → Option Row
  | [] => none
  | r :: rest =>
      some (rest.foldl
        (fun best x =>
          if cellNum (rowGet best "valor_total_pago") < cellNum (rowGet x "valor_total_pago")
          then x else best) r)

/-- `df.groupby(key)['valor_total_pago'].sum()` in first-encounter
order of the keys (pandas groups; order is irrelevant to the claims). -/
def groupSums (l : List Row) (key : String) : List (Cell × ℚ) :=
  l.foldl
    (fun acc r =>
      let k := rowGet r key
      let v := cellNum (rowGet r "valor_total_pago")
      if acc.any (fun p => p.1 == k) then
        acc.map (fun p => if p.1 == k then (p.1, p.2 + v) else p)
      else acc ++ [(k, v)])
    []

/-- `Series.idxmax()`: the first key attaining the maximal value. -/
def idxmaxAcc : List (Cell × ℚ) → Option Cell
  | [] => none
  | p :: rest => some (rest.foldl (fun best q => if best.2 < q.2 then q else best) p).1

/-- `group.idxmax() if not group.empty else "N/A"` (line 75). -/
def groupIdxmax (l : List Row) (key : String) : Cell :=
  match idxmaxAcc (groupSums l key) with
  | some k => k
  | none => .str "N/A"

/-- The Overview KPIs (lines 73-77): total paid, largest invoice row,
reference number and counterparty with the largest aggregated total;
zeroed/placeholder values on an empty paid frame. -/
def visaoGeralKPIs (dfPago : List Row) : ℚ × Option Row × Cell × Cell :=
  if dfPago.isEmpty then (0, none, .str "N/A", .str "N/A")
  else (sumTotalPago dfPago, maiorFatura dfPago,
        groupIdxmax dfPago "numero_rm", groupIdxmax dfPago "correspondente")

/-- Stable insertion into a ≥-sorted list (descending by value). -/
def insertValDesc (p : Cell × ℚ) : List (Cell × ℚ) → List (Cell × ℚ)
  | [] => [p]
  | q :: rest => if q.2 < p.2 then p :: q :: rest else q :: insertValDesc p rest

/-- `sort_values(ascending=False)` on a keyed sum series. -/
def sortValDesc (l : List (Cell × ℚ)) : List (Cell × ℚ) :=
  l.foldr insertValDesc []

/-- The counterparty ranking of `display_correspondentes` (lines
141-146): `none` models the empty-input `st.info` branch. -/
def rankingCorrespondentes (dfPago : List Row) : Option (List (Cell × ℚ)) :=
  if dfPago.isEmpty then none
  else some (sortValDesc (groupSums dfPago "correspondente"))

/-- `df_pendente.groupby(['correspondente','moeda'])['valor_moeda_origem']
.agg(['count','sum'])` in first-encounter order (line 156). -/
def pendGroup (l : List Row) : List ((Cell × Cell) × Nat × ℚ) :=
  l.foldl
    (fun acc r =>
      let k := (rowGet r "correspondente", rowGet r "moeda")
      let v := cellNum (rowGet r "valor_moeda_origem")
      if acc.any (fun p => p.1 == k) then
        acc.map (fun p => if p.1 == k then (p.1, p.2.1 + 1, p.2.2 + v) else p)
      else acc ++ [(k, 1, v)])
    []

/-- Stable insertion descending by the aggregated sum. -/
def insertPendDesc (p : (Cell × Cell) × Nat × ℚ) :
    List ((Cell × Cell) × Nat × ℚ) → List ((Cell × Cell) × Nat × ℚ)
  | [] => [p]
  | q :: rest => if q.2.2 < p.2.2 then p :: q :: rest else q :: insertPendDesc p rest

/-- `sort_values(by='sum', ascending=False)` (line 156). -/
def sortPendDesc (l : List ((Cell × Cell) × Nat × ℚ)) : List ((Cell × Cell) × Nat × ℚ) :=
  l.foldr insertPendDesc []

/-- The pending-balance table of `display_correspondentes` (lines
154-160): `none` models the empty-input `st.info` branch. -/
def pendenciasPorCorrespondente (dfPendente : List Row) :
    Option (List ((Cell × Cell) × Nat × ℚ)) :=
  if dfPendente.isEmpty then none
  else some (sortPendDesc (pendGroup dfPendente))

/-- Line 173: `df_pago_original['data_pagamento'].min().date(),
df_pago_original['data_pagamento'].max().date()`.  `min`/`max` skip NaT;
`NaT.date()` raises, modelled as `none` (the render cycle fails). -/
def dateRangeSetup (dfPago : List Row) : Option (Int × Int) :=
  let ds := dfPago.filterMap (fun r => toDate (rowGet r "data_pagamento"))
  match ds.min?, ds.max? with
  | some a, some b => some (a, b)
  | _, _ => none

/-- A well-formed sample workbook sheet (after the skipped header row):
one paid and one pending row, all recognized columns present. -/
def sampleRaw : RawTable :=
  ⟨["Data de Pagamento", "Valor em R$", "Número do RM", "Correspondente", "ND recebida",
    "IOF", "TX CONTRATO", "IRRF", "CIDE", "Moeda", "Valor"],
   [[("Data de Pagamento", .date 738901), ("Valor em R$", .num 100), ("Número do RM", .str "123"),
     ("Correspondente", .str "Acme"), ("ND recebida", .str "ND1"), ("IOF", .num 5),
     ("TX CONTRATO", .num 3), ("IRRF", .num 2), ("CIDE", .num 1), ("Moeda", .str "USD"),
     ("Valor", .num 10)],
    [("Data de Pagamento", .empty), ("Valor em R$", .num 50), ("Número do RM", .str "124"),
     ("Correspondente", .str "Beta"), ("ND recebida", .empty), ("IOF", .empty),
     ("TX CONTRATO", .num 1), ("IRRF", .num 0), ("CIDE", .num 0), ("Moeda", .str "EUR"),
     ("Valor", .num 20)]]⟩

/-- The normalized table of `sampleRaw`. -/
def sampleNormT : RawTable := (normalizeTable sampleRaw).toOption.getD ⟨[], []⟩

/-- A sheet whose `IOF` column is absent: recognized-but-absent. -/
def missingRaw : RawTable :=
  ⟨["Data de Pagamento", "Valor em R$", "Número do RM", "Correspondente", "ND recebida",
    "TX CONTRATO", "IRRF", "CIDE", "Moeda", "Valor"],
   [[("Data de Pagamento", .empty), ("Valor em R$", .num 7), ("Número do RM", .str "1"),
     ("Correspondente", .str "Acme"), ("ND recebida", .empty), ("TX CONTRATO", .num 0),
     ("IRRF", .num 0), ("CIDE", .num 0), ("Moeda", .str "USD"), ("Valor", .num 1)]]⟩

/-- A sheet carrying a negative principal amount. -/
def negRaw : RawTable :=
  ⟨["Data de Pagamento", "Valor em R$", "Número do RM", "Correspondente", "ND recebida",
    "IOF", "TX CONTRATO", "IRRF", "CIDE", "Moeda", "Valor"],
   [[("Data de Pagamento", .date 738901), ("Valor em R$", .num (-5)), ("Número do RM", .str "9"),
     ("Correspondente", .str "Acme"), ("ND recebida", .empty), ("IOF", .num 0),
     ("TX CONTRATO", .num 0), ("IRRF", .num 0), ("CIDE", .num 0), ("Moeda", .str "USD"),
     ("Valor", .num 0)]]⟩

/-- The normalized table of `negRaw`. -/
def negNormT : RawTable := (normalizeTable negRaw).toOption.getD ⟨[], []⟩

theorem rowGet_setCell (r : Row) (c c' : String) (v : Cell) :
    rowGet (setCell r c v) c' = if c' = c then v else rowGet r c' := by
  unfold rowGet setCell
  by_cases h : c' = c
  · subst h; simp
  · have hcc : (c == c') = false := by
      simp [beq_iff_eq]; exact fun he => h he.symm
    simp only [List.find?_cons, hcc, if_pos rfl, if_neg h]
    induction r with
    | nil => simp
    | cons a as ih =>
      by_cases ha : a.1 = c
      · have h1 : (!(a.1 == c)) = false := by simp [ha]
        have h2 : (a.1 == c') = false := by
          simp [beq_iff_eq, ha]; exact fun he => h he.symm
        simp only [List.filter_cons, h1, List.find?_cons, h2]
        exact ih
      · have h1 : (!(a.1 == c)) = true := by simp [ha]
        simp only [List.filter_cons, h1, if_true]
        simp only [List.find?_cons]
        cases hac : (a.1 == c') with
        | true => simp [hac]
        | false => simp only [hac]; exact ih

theorem applySteps_ok (ss : List (String × (Cell → Cell))) :
    ∀ t t' : RawTable, applySteps t ss = .ok t' →
      t'.cols = t.cols ∧ t'.rows = t.rows.map (rowSteps ss) := by
  induction ss with
  | nil =>
      intro t t' h
      simp only [applySteps, Except.ok.injEq] at h
      subst h
      exact ⟨rfl, (List.map_id' t.rows).symm⟩
  | cons p rest ih =>
      intro t t' h
      obtain ⟨c, f⟩ := p
      simp only [applySteps] at h
      cases hm : mapColE t c f with
      | error e => rw [hm] at h; cases h
      | ok t1 =>
          rw [hm] at h
          obtain ⟨hc, hr⟩ := ih t1 t' h
          unfold mapColE at hm
          by_cases hmem : c ∈ t.cols
          · rw [if_pos hmem] at hm
            injection hm with hm
            subst hm
            refine ⟨hc, ?_⟩
            rw [hr]
            simp only [List.map_map]
            rfl
          · rw [if_neg hmem] at hm; cases hm

theorem applySteps_ok_iff (ss : List (String × (Cell → Cell))) :
    ∀ t : RawTable, (∃ t', applySteps t ss = .ok t') ↔ ∀ p ∈ ss, p.1 ∈ t.cols := by
  induction ss with
  | nil => intro t; simp [applySteps]
  | cons p rest ih =>
      intro t
      obtain ⟨c, f⟩ := p
      constructor
      · rintro ⟨t', h⟩
        simp only [applySteps] at h
        cases hm : mapColE t c f with
        | error e => rw [hm] at h; cases h
        | ok t1 =>
            rw [hm] at h
            unfold mapColE at hm
            by_cases hmem : c ∈ t.cols
            · rw [if_pos hmem] at hm
              injection hm with hm
              intro q hq
              rcases List.mem_cons.mp hq with hq | hq
              · subst hq; exact hmem
              · have hcols : t1.cols = t.cols := by rw [← hm]
                have := (ih t1).mp ⟨t', h⟩ q hq
                rwa [hcols] at this
            · rw [if_neg hmem] at hm; cases hm
      · intro hall
        have hmem : c ∈ t.cols := hall (c, f) (List.mem_cons_self _ _)
        simp only [applySteps, mapColE, if_pos hmem]
        exact (ih ⟨t.cols, t.rows.map (fun r => setCell r c (f (rowGet r c)))⟩).mpr
          (fun q hq => hall q (List.mem_cons_of_mem _ hq))

theorem normalizeTable_rows (t0 t : RawTable) (h : normalizeTable t0 = .ok t) :
    t.rows = t0.rows.map (fun r => normRow (renameRow r)) := by
  unfold normalizeTable at h
  cases h1 : applySteps (selectCols (renameTable t0)) normSteps with
  | error e => rw [h1] at h; cases h
  | ok t1 =>
      rw [h1] at h
      obtain ⟨hc1, hr1⟩ := applySteps_ok _ _ _ h1
      have h' : (match addColE t1 "status" ["data_pagamento"] statusCell with
          | .error e => (Except.error e : Except String RawTable)
          | .ok t2 => addColE t2 "valor_total_pago" totalCols totalCell) = .ok t := h
      cases h2 : addColE t1 "status" ["data_pagamento"] statusCell with
      | error e => rw [h2] at h'; cases h'
      | ok t2 =>
          rw [h2] at h'
          have h'' : addColE t2 "valor_total_pago" totalCols totalCell = .ok t := h'
          unfold addColE at h2
          split at h2
          · injection h2 with h2
            unfold addColE at h''
            split at h''
            · injection h'' with h''
              subst h''
              rw [← h2]
              simp only [selectCols, renameTable] at hr1
              rw [hr1]
              simp only [List.map_map]
              rfl
            · cases h''
          · cases h2

theorem normRow_principal (r : Row) :
    rowGet (normRow r) "valor_principal_rs" = coerceNumeric (rowGet r "valor_principal_rs") := by
  simp [normRow, rowSteps, normSteps, stepRow, rowGet_setCell]

theorem normRow_iof (r : Row) :
    rowGet (normRow r) "iof" = coerceNumeric (rowGet r "iof") := by
  simp [normRow, rowSteps, normSteps, stepRow, rowGet_setCell]

theorem normRow_tx (r : Row) :
    rowGet (normRow r) "tx_contrato" = coerceNumeric (rowGet r "tx_contrato") := by
  simp [normRow, rowSteps, normSteps, stepRow, rowGet_setCell]

theorem normRow_irrf (r : Row) :
    rowGet (normRow r) "irrf" = coerceNumeric (rowGet r "irrf") := by
  simp [normRow, rowSteps, normSteps, stepRow, rowGet_setCell]

theorem normRow_cide (r : Row) :
    rowGet (normRow r) "cide" = coerceNumeric (rowGet r "cide") := by
  simp [normRow, rowSteps, normSteps, stepRow, rowGet_setCell]

theorem normRow_moedaOrigem (r : Row) :
    rowGet (normRow r) "valor_moeda_origem" = coerceNumeric (rowGet r "valor_moeda_origem") := by
  simp [normRow, rowSteps, normSteps, stepRow, rowGet_setCell]

theorem normRow_dataPagamento (r : Row) :
    rowGet (normRow r) "data_pagamento" = coerceDate (rowGet r "data_pagamento") := by
  simp [normRow, rowSteps, normSteps, stepRow, rowGet_setCell]

theorem normRow_statusField (r : Row) :
    rowGet (normRow r) "status" =
      (if (toDate (coerceDate (rowGet r "data_pagamento"))).isSome then Cell.str "Pago"
       else Cell.str "Pendente") := by
  simp [normRow, rowSteps, normSteps, stepRow, rowGet_setCell, statusCell]

theorem normRow_totalField (r : Row) :
    rowGet (normRow r) "valor_total_pago" =
      .num (cellNum (coerceNumeric (rowGet r "valor_principal_rs")) +
            cellNum (coerceNumeric (rowGet r "iof")) +
            cellNum (coerceNumeric (rowGet r "tx_contrato")) +
            cellNum (coerceNumeric (rowGet r "irrf")) +
            cellNum (coerceNumeric (rowGet r "cide"))) := by
  simp [normRow, rowSteps, normSteps, stepRow, rowGet_setCell, totalCell]

theorem toDate_coerceDate (c : Cell) : toDate (coerceDate c) = toDate c := by
  cases c <;> rfl

theorem mem_selectCols_cols (t : RawTable) (c : String) :
    c ∈ (selectCols t).cols ↔ c ∈ colsToKeep ∧ c ∈ t.cols := by
  simp [selectCols]

theorem normSteps_names_iff (X : List String) :
    (∀ p ∈ normSteps, p.1 ∈ X) ↔ ∀ c ∈ colsToKeep, c ∈ X := by
  simp only [normSteps, colsToKeep, List.forall_mem_cons, List.forall_mem_nil]
  tauto

theorem normalizeTable_ok_iff (t0 : RawTable) :
    (∃ t, normalizeTable t0 = .ok t) ↔ ∀ c ∈ colsToKeep, c ∈ (renameTable t0).cols := by
  constructor
  · rintro ⟨t, h⟩
    unfold normalizeTable at h
    cases h1 : applySteps (selectCols (renameTable t0)) normSteps with
    | error e => rw [h1] at h; cases h
    | ok t1 =>
        have hsteps := (applySteps_ok_iff normSteps (selectCols (renameTable t0))).mp ⟨t1, h1⟩
        intro c hc
        have hmem := (normSteps_names_iff _).mp hsteps c hc
        exact ((mem_selectCols_cols _ _).mp hmem).2
  · intro hall
    have hsel : ∀ c ∈ colsToKeep, c ∈ (selectCols (renameTable t0)).cols :=
      fun c hc => (mem_selectCols_cols _ _).mpr ⟨hc, hall c hc⟩
    obtain ⟨t1, h1⟩ :=
      (applySteps_ok_iff normSteps _).mpr ((normSteps_names_iff _).mpr hsel)
    have hc1 : t1.cols = (selectCols (renameTable t0)).cols := (applySteps_ok _ _ _ h1).1
    have hdp : "data_pagamento" ∈ t1.cols := by
      rw [hc1]; exact hsel "data_pagamento" (by decide)
    have hcond1 : ∀ d ∈ (["data_pagamento"] : List String), d ∈ t1.cols := by
      intro d hd
      simp only [List.mem_singleton] at hd
      subst hd
      exact hdp
    have hcond2 : ∀ d ∈ totalCols, d ∈ t1.cols ++ ["status"] := by
      intro d hd
      refine List.mem_append_left _ ?_
      rw [hc1]
      refine hsel d ?_
      simp only [totalCols, List.mem_cons, List.not_mem_nil, or_false] at hd
      rcases hd with rfl | rfl | rfl | rfl | rfl <;> decide
    refine ⟨⟨(t1.cols ++ ["status"]) ++ ["valor_total_pago"],
      (t1.rows.map (fun r => setCell r "status" (statusCell r))).map
        (fun r => setCell r "valor_total_pago" (totalCell r))⟩, ?_⟩
    simp only [normalizeTable, h1, addColE, if_pos hcond1, if_pos hcond2]

theorem getD_zero_mem {α : Type} (l : List α) (d : α) (h : 0 < l.length) :
    l.getD 0 d ∈ l := by
  rw [List.getD_eq_getElem?_getD, List.getElem?_eq_getElem h, Option.getD_some]
  exact List.getElem_mem h

/-- C1: for every record of the normalized table, the derived
`valor_total_pago` (total_paid) field equals the sum
`valor_principal_rs + iof + tx_contrato + irrf + cide`
(principal_amount + iof + contract_tax + withholding_tax + cide_tax),
exactly as the addition computes it. -/
theorem total_paid_eq_component_sum (t0 t : RawTable) (h : normalizeTable t0 = .ok t)
    (r : Row) (hr : r ∈ t.rows) :
    rowGet r "valor_total_pago" =
      Cell.num (cellNum (rowGet r "valor_principal_rs") + cellNum (rowGet r "iof") +
        cellNum (rowGet r "tx_contrato") + cellNum (rowGet r "irrf") +
        cellNum (rowGet r "cide")) := by
  rw [normalizeTable_rows t0 t h] at hr
  obtain ⟨r0, hr0, rfl⟩ := List.mem_map.mp hr
  rw [normRow_totalField, normRow_principal, normRow_iof, normRow_tx, normRow_irrf,
    normRow_cide]

/-- Witness for C1 at the first normalized row of the sample sheet. -/
theorem total_paid_eq_component_sum_witness :
    rowGet (sampleNormT.rows.getD 0 []) "valor_total_pago" =
      Cell.num (cellNum (rowGet (sampleNormT.rows.getD 0 []) "valor_principal_rs") +
        cellNum (rowGet (sampleNormT.rows.getD 0 []) "iof") +
        cellNum (rowGet (sampleNormT.rows.getD 0 []) "tx_contrato") +
        cellNum (rowGet (sampleNormT.rows.getD 0 []) "irrf") +
        cellNum (rowGet (sampleNormT.rows.getD 0 []) "cide")) :=
  total_paid_eq_component_sum sampleRaw sampleNormT (by rfl) _
    (getD_zero_mem _ _ (by decide))

/-- C2: for every record of the normalized table, the derived `status`
field is `"Pago"` (Paid) exactly when `data_pagamento` (payment_date) is
present (a parseable date), and the status is always exactly one of
`"Pago"` and `"Pendente"` (Pending). -/
theorem status_paid_iff_payment_date (t0 t : RawTable) (h : normalizeTable t0 = .ok t)
    (r : Row) (hr : r ∈ t.rows) :
    (rowGet r "status" = Cell.str "Pago" ↔
      (toDate (rowGet r "data_pagamento")).isSome = true) ∧
    (rowGet r "status" = Cell.str "Pago" ∨ rowGet r "status" = Cell.str "Pendente") ∧
    ¬(rowGet r "status" = Cell.str "Pago" ∧ rowGet r "status" = Cell.str "Pendente") := by
  rw [normalizeTable_rows t0 t h] at hr
  obtain ⟨r0, hr0, rfl⟩ := List.mem_map.mp hr
  rw [normRow_statusField, normRow_dataPagamento]
  cases htd : toDate (coerceDate (rowGet (renameRow r0) "data_pagamento")) with
  | none => simp [htd]
  | some d => simp [htd]

/-- Witness for C2 at the first normalized row of the sample sheet. -/
theorem status_paid_iff_payment_date_witness :
    (rowGet (sampleNormT.rows.getD 0 []) "status" = Cell.str "Pago" ↔
      (toDate (rowGet (sampleNormT.rows.getD 0 []) "data_pagamento")).isSome = true) ∧
    (rowGet (sampleNormT.rows.getD 0 []) "status" = Cell.str "Pago" ∨
      rowGet (sampleNormT.rows.getD 0 []) "status" = Cell.str "Pendente") ∧
    ¬(rowGet (sampleNormT.rows.getD 0 []) "status" = Cell.str "Pago" ∧
      rowGet (sampleNormT.rows.getD 0 []) "status" = Cell.str "Pendente") :=
  status_paid_iff_payment_date sampleRaw sampleNormT (by rfl) _
    (getD_zero_mem _ _ (by decide))

theorem status_dichotomy (t0 t : RawTable) (h : normalizeTable t0 = .ok t) :
    ∀ r ∈ t.rows,
      rowGet r "status" = Cell.str "Pago" ∨ rowGet r "status" = Cell.str "Pendente" := by
  intro r hr
  rw [normalizeTable_rows t0 t h] at hr
  obtain ⟨r0, hr0, rfl⟩ := List.mem_map.mp hr
  rw [normRow_statusField]
  by_cases hd : (toDate (coerceDate (rowGet (renameRow r0) "data_pagamento"))).isSome = true
  · left; rw [if_pos hd]
  · right; rw [if_neg hd]

theorem length_filter_split {α : Type} (l : List α) (p q : α → Bool)
    (hpq : ∀ a ∈ l, q a = !p a) :
    (l.filter p).length + (l.filter q).length = l.length := by
  induction l with
  | nil => rfl
  | cons a as ih =>
      have ha := hpq a (List.mem_cons_self a as)
      have ih' := ih (fun x hx => hpq x (List.mem_cons_of_mem a hx))
      cases hp : p a <;> rw [hp] at ha <;>
        simp [List.filter_cons, hp, ha] <;> omega

/-- C3: the partitioner splits the normalized rows into the paid rows
(status `"Pago"`) and the pending rows (status `"Pendente"`), each a
sublist of the original rows (so relative order is preserved); the two
lengths sum to the total count, and every record belongs to a partition
iff it has that status, never to both. -/
theorem partition_splits_by_status (t0 t : RawTable) (h : normalizeTable t0 = .ok t) :
    (partitionTable t).1.rows.Sublist t.rows ∧
    (partitionTable t).2.rows.Sublist t.rows ∧
    (partitionTable t).1.rows.length + (partitionTable t).2.rows.length =
      t.rows.length ∧
    ∀ r ∈ t.rows,
      (r ∈ (partitionTable t).1.rows ↔ rowGet r "status" = Cell.str "Pago") ∧
      (r ∈ (partitionTable t).2.rows ↔ rowGet r "status" = Cell.str "Pendente") ∧
      ¬(r ∈ (partitionTable t).1.rows ∧ r ∈ (partitionTable t).2.rows) := by
  refine ⟨List.filter_sublist _, List.filter_sublist _, ?_, ?_⟩
  · refine length_filter_split _ _ _ ?_
    intro r hr
    rcases status_dichotomy t0 t h r hr with hs | hs <;> simp [hs]
  · intro r hr
    have h1 : r ∈ (partitionTable t).1.rows ↔ rowGet r "status" = Cell.str "Pago" := by
      simp [partitionTable, List.mem_filter, hr]
    have h2 : r ∈ (partitionTable t).2.rows ↔ rowGet r "status" = Cell.str "Pendente" := by
      simp [partitionTable, List.mem_filter, hr]
    refine ⟨h1, h2, ?_⟩
    rintro ⟨hp, hq⟩
    rw [h1] at hp
    rw [h2, hp] at hq
    simp at hq

/-- Witness for C3 at the first normalized row of the sample sheet. -/
theorem partition_splits_by_status_witness :
    ((sampleNormT.rows.getD 0 []) ∈ (partitionTable sampleNormT).1.rows ↔
      rowGet (sampleNormT.rows.getD 0 []) "status" = Cell.str "Pago") ∧
    ((sampleNormT.rows.getD 0 []) ∈ (partitionTable sampleNormT).2.rows ↔
      rowGet (sampleNormT.rows.getD 0 []) "status" = Cell.str "Pendente") ∧
    ¬((sampleNormT.rows.getD 0 []) ∈ (partitionTable sampleNormT).1.rows ∧
      (sampleNormT.rows.getD 0 []) ∈ (partitionTable sampleNormT).2.rows) :=
  (partition_splits_by_status sampleRaw sampleNormT (by rfl)).2.2.2 _
    (getD_zero_mem _ _ (by decide))

/-- C4 counterexample: a raw sheet whose recognized `IOF` column is
absent makes the normalizer error (the coercion `df['iof'] = ...` raises
`KeyError`), refuting "omits that column and does not error". -/
theorem missing_recognized_column_errors :
    normalizeTable missingRaw = .error "KeyError: iof" := by rfl

/-- C4 amended: the column-selection step omits recognized-but-absent
columns without error, but the subsequent per-column coercions read
every recognized column, so normalization succeeds exactly when every
recognized column is present after renaming; numeric coercion of cell
values itself never raises, substituting 0 for unparseable cells. -/
theorem normalize_ok_iff_all_recognized_present (t0 : RawTable) :
    ((∃ t, normalizeTable t0 = .ok t) ↔ ∀ c ∈ colsToKeep, c ∈ (renameTable t0).cols) ∧
    ∀ c : Cell, toNumeric c = none → coerceNumeric c = Cell.num 0 := by
  refine ⟨normalizeTable_ok_iff t0, ?_⟩
  intro c hc
  simp [coerceNumeric, hc]

/-- Witness for the amended C4: numeric coercion of an unparseable cell
substitutes 0 rather than raising. -/
theorem normalize_ok_iff_all_recognized_present_witness :
    coerceNumeric (Cell.str "abc") = Cell.num 0 :=
  (normalize_ok_iff_all_recognized_present sampleRaw).2 (Cell.str "abc") (by rfl)

/-- C5 counterexample: a parseable negative `Valor em R$` cell passes
through coercion unchanged, so a normalized record carries a negative
`valor_principal_rs`, refuting "every monetary amount field ... is
non-negative". -/
theorem negative_amount_survives :
    normalizeTable negRaw = .ok negNormT ∧
    (negNormT.rows.getD 0 []) ∈ negNormT.rows ∧
    cellNum (rowGet (negNormT.rows.getD 0 []) "valor_principal_rs") < 0 :=
  ⟨by rfl, getD_zero_mem _ _ (by decide), by decide⟩

/-- C5 amended: after normalization every monetary amount field holds a
numeric value — the parsed raw value when parseable, 0 when missing or
unparseable — and the fields are non-negative provided every parseable
raw monetary value is non-negative (coercion does not clamp negatives). -/
theorem amounts_nonneg_of_nonneg_inputs (t0 t : RawTable)
    (h : normalizeTable t0 = .ok t)
    (hn : ∀ r0 ∈ t0.rows, ∀ c ∈ numericCols,
      0 ≤ ((toNumeric (rowGet (renameRow r0) c)).getD 0)) :
    ∀ r ∈ t.rows, ∀ c ∈ numericCols,
      (∃ q, rowGet r c = Cell.num q) ∧ 0 ≤ cellNum (rowGet r c) := by
  intro r hr c hc
  rw [normalizeTable_rows t0 t h] at hr
  obtain ⟨r0, hr0, rfl⟩ := List.mem_map.mp hr
  have hval : rowGet (normRow (renameRow r0)) c = coerceNumeric (rowGet (renameRow r0) c) := by
    simp only [numericCols, List.mem_cons, List.not_mem_nil, or_false] at hc
    rcases hc with rfl | rfl | rfl | rfl | rfl | rfl
    · exact normRow_principal _
    · exact normRow_iof _
    · exact normRow_tx _
    · exact normRow_irrf _
    · exact normRow_cide _
    · exact normRow_moedaOrigem _
  rw [hval]
  exact ⟨⟨_, rfl⟩, hn r0 hr0 c hc⟩

/-- Witness for the amended C5 at the first sample row, `iof` column. -/
theorem amounts_nonneg_of_nonneg_inputs_witness :
    (∃ q, rowGet (sampleNormT.rows.getD 0 []) "iof" = Cell.num q) ∧
    0 ≤ cellNum (rowGet (sampleNormT.rows.getD 0 []) "iof") :=
  amounts_nonneg_of_nonneg_inputs sampleRaw sampleNormT (by rfl) (by decide) _
    (getD_zero_mem _ _ (by decide)) "iof" (by decide)

/-- C6: with a two-date range selected, the pending output is the same
as with no date range (the date filter touches only the paid side), and
a paid record survives exactly when it additionally has a payment date
`d` with `s ≤ d ≤ e` — inclusive on both ends. -/
theorem date_filter_paid_only_inclusive (paid pending : List Row) (s e : Int)
    (cs rs : List Cell) :
    (applyFilters paid pending ⟨some (s, e), cs, rs⟩).2 =
      (applyFilters paid pending ⟨none, cs, rs⟩).2 ∧
    ∀ r, r ∈ (applyFilters paid pending ⟨some (s, e), cs, rs⟩).1 ↔
      (r ∈ (applyFilters paid pending ⟨none, cs, rs⟩).1 ∧
        ∃ d, toDate (rowGet r "data_pagamento") = some d ∧ s ≤ d ∧ d ≤ e) := by
  refine ⟨rfl, ?_⟩
  intro r
  simp only [applyFilters, List.mem_filter]
  constructor
  · rintro ⟨⟨hrp, hdf⟩, hm⟩
    refine ⟨⟨hrp, hm⟩, ?_⟩
    unfold dateFilterRow at hdf
    cases htd : toDate (rowGet r "data_pagamento") with
    | none => rw [htd] at hdf; cases hdf
    | some d =>
        rw [htd] at hdf
        exact ⟨d, rfl, of_decide_eq_true hdf⟩
  · rintro ⟨⟨hrp, hm⟩, d, hd, h1, h2⟩
    refine ⟨⟨hrp, ?_⟩, hm⟩
    unfold dateFilterRow
    rw [hd]
    exact decide_eq_true ⟨h1, h2⟩

theorem filter_false_nil {α : Type} (l : List α) (p : α → Bool)
    (hp : ∀ a, p a = false) : l.filter p = [] := by
  induction l with
  | nil => rfl
  | cons a as ih => simp [List.filter_cons, hp a, ih]

/-- C7: an empty counterparty selection (or an empty reference-number
selection) filters both the paid and the pending sequence down to
empty — selecting nothing shows nothing, not "no filter". -/
theorem empty_selection_filters_to_empty (paid pending : List Row)
    (dr : Option (Int × Int)) (cs rs : List Cell) :
    applyFilters paid pending ⟨dr, [], rs⟩ = ([], []) ∧
    applyFilters paid pending ⟨dr, cs, []⟩ = ([], []) := by
  have hcs : ∀ l : List Row, l.filter (memFilterRow ⟨dr, [], rs⟩) = [] :=
    fun l => filter_false_nil l _ (fun r => by simp [memFilterRow])
  have hrs : ∀ l : List Row, l.filter (memFilterRow ⟨dr, cs, []⟩) = [] :=
    fun l => filter_false_nil l _ (fun r => by simp [memFilterRow])
  constructor
  · simp [applyFilters, hcs]
  · simp [applyFilters, hrs]

theorem filter_self_idem {α : Type} (l : List α) (p : α → Bool) :
    (l.filter p).filter p = l.filter p := by
  rw [List.filter_filter]
  exact List.filter_congr (fun a _ => Bool.and_self (p a))

theorem filter_pair_idem {α : Type} (l : List α) (m d : α → Bool) :
    (((l.filter d).filter m).filter d).filter m = (l.filter d).filter m := by
  rw [List.filter_filter, List.filter_filter, List.filter_filter, List.filter_filter]
  exact List.filter_congr (fun a _ => by cases m a <;> cases d a <;> rfl)

/-- C8: the filter engine is idempotent — feeding its own output back
in with the same filter specification returns that output unchanged
(and, being a pure function on lists, it never mutates its inputs). -/
theorem filter_engine_idempotent (paid pending : List Row) (spec : FilterSpec) :
    applyFilters (applyFilters paid pending spec).1 (applyFilters paid pending spec).2
      spec = applyFilters paid pending spec := by
  obtain ⟨dr, cs, rs⟩ := spec
  cases dr with
  | none =>
      simp only [applyFilters]
      rw [filter_self_idem, filter_self_idem]
  | some se =>
      obtain ⟨s, e⟩ := se
      simp only [applyFilters]
      rw [filter_pair_idem, filter_self_idem]

/-- C9: the view aggregations return zeroed/placeholder results on
empty input — total paid 0, no largest invoice, "N/A" placeholders, and
the guarded ranking/pending views take their info branch — and, being
total functions, never raise. -/
theorem aggregations_empty_input_safe :
    visaoGeralKPIs [] = (0, none, Cell.str "N/A", Cell.str "N/A") ∧
    rankingCorrespondentes [] = none ∧
    pendenciasPorCorrespondente [] = none :=
  ⟨rfl, rfl, rfl⟩

/-- C10: the global date-range setup (`min().date()/max().date()` over
the paid partition, line 173) fails exactly when the paid partition is
empty: with no paid record the render cycle dies instead of showing
zeroed output, and with at least one paid record it succeeds. -/
theorem date_range_setup_requires_paid (t0 t : RawTable)
    (h : normalizeTable t0 = .ok t) :
    dateRangeSetup (partitionTable t).1.rows = none ↔
      (partitionTable t).1.rows = [] := by
  constructor
  · intro hnone
    by_contra hne
    obtain ⟨r, hr⟩ := List.exists_mem_of_ne_nil _ hne
    have hmf := List.mem_filter.mp hr
    have hst : rowGet r "status" = Cell.str "Pago" := by simpa using hmf.2
    have hdate : (toDate (rowGet r "data_pagamento")).isSome = true := by
      have hrt := hmf.1
      rw [normalizeTable_rows t0 t h] at hrt
      obtain ⟨r0, hr0, hre⟩ := List.mem_map.mp hrt
      rw [← hre] at hst ⊢
      rw [normRow_statusField] at hst
      rw [normRow_dataPagamento]
      by_cases hd : (toDate (coerceDate (rowGet (renameRow r0) "data_pagamento"))).isSome = true
      · exact hd
      · rw [if_neg hd] at hst; simp at hst
    obtain ⟨d, hd⟩ := Option.isSome_iff_exists.mp hdate
    have hds : d ∈ (partitionTable t).1.rows.filterMap
        (fun r => toDate (rowGet r "data_pagamento")) :=
      List.mem_filterMap.mpr ⟨r, hr, hd⟩
    simp only [dateRangeSetup] at hnone
    cases hmin : ((partitionTable t).1.rows.filterMap
        (fun r => toDate (rowGet r "data_pagamento"))).min? with
    | none => exact List.ne_nil_of_mem hds (List.min?_eq_none_iff.mp hmin)
    | some a =>
        cases hmax : ((partitionTable t).1.rows.filterMap
            (fun r => toDate (rowGet r "data_pagamento"))).max? with
        | none => exact List.ne_nil_of_mem hds (List.max?_eq_none_iff.mp hmax)
        | some b => rw [hmin, hmax] at hnone; cases hnone
  · intro he
    rw [dateRangeSetup, he]
    rfl

/-- Witness for C10 on the sample sheet (one paid record present). -/
theorem date_range_setup_requires_paid_witness :
    dateRangeSetup (partitionTable sampleNormT).1.rows = none ↔
      (partitionTable sampleNormT).1.rows = [] :=
  date_range_setup_requires_paid sampleRaw sampleNormT (by rfl)

end Dashboard
